import Mathlib

/-!
Verification of the wnram WordNet loader: a shallow embedding of the
line lexer and parser (`parser.go`), the graph builder and post-pass of
`New`, and the query surface (`Lookup`, `Related`, `Iterate`) from the
library source.  Go strings are modelled as `List Char`, machine
integers as `Nat` with explicit `% 2 ^ w` where truncation matters,
heap pointers to clusters as indices into an arena (`List cluster`),
and the Go maps as insertion-ordered association lists.  Code paths
that panic in Go (out-of-range slice indexing, nil dereference) are
modelled by `Option`, with `none` standing for the crash.
-/

set_option maxHeartbeats 1000000

set_option linter.dupNamespace false

namespace Wnram

/-- Whitespace test matching Go's `unicode.IsSpace` on the ASCII range
(space, tab, newline, vertical tab, form feed, carriage return). -/
def goIsSpace (c : Char) : Bool :=
  c = ' ' || c = '\t' || c = '\n' || c = '\x0b' || c = '\x0c' || c = '\r'

/-- Lower-casing of one character as `strings.ToLower` acts on ASCII input. -/
def charToLower (c : Char) : Char :=
  if 'A' ≤ c ∧ c ≤ 'Z' then Char.ofNat (c.toNat + 32) else c

/-- Worker for `fields`, accumulating the current word reversed. -/
def fieldsAux : List Char → List Char → List (List Char)
  | [], acc => if acc = [] then [] else [acc.reverse]
  | c :: rest, acc =>
    if goIsSpace c then
      if acc = [] then fieldsAux rest [] else acc.reverse :: fieldsAux rest []
    else fieldsAux rest (c :: acc)

/-- The `strings.Fields` split: maximal nonempty runs of non-whitespace. -/
def fields (l : List Char) : List (List Char) := fieldsAux l []

/-- The `strings.Join(..., " ")` used by `normalize`. -/
def joinSpace : List (List Char) → List Char
  | [] => []
  | [w] => w
  | w :: ws => w ++ ' ' :: joinSpace ws

/-- The `normalize` function: collapse whitespace runs to single spaces
and lower-case (`strings.ToLower(strings.Join(strings.Fields(in), " "))`). -/
def normalize (l : List Char) : List Char :=
  (joinSpace (fields l)).map charToLower

/-- The `lexable.chomp` method: skip leading whitespace. -/
def chomp : List Char → List Char
  | [] => []
  | c :: rest => if goIsSpace c then chomp rest else c :: rest

/-- Numeric value of a decimal digit character. -/
def digitVal (c : Char) : Nat := c.toNat - '0'.toNat

/-- Base-10 value of a digit run, as accumulated by `strconv.ParseInt`. -/
def digitsToNat (ds : List Char) : Nat := ds.foldl (fun a c => 10 * a + digitVal c) 0

/-- The `lexable.lexDecimalNumber` method: maximal run of decimal
digits fed to `strconv.ParseInt(_, 10, 64)`; an empty run or int64
overflow is an error. -/
def lexDecimalNumber (l : List Char) : Except String (Nat × List Char) :=
  let l' := chomp l
  let ds := l'.takeWhile Char.isDigit
  if ds = [] then .error "number not found in string"
  else if digitsToNat ds < 2 ^ 63 then .ok (digitsToNat ds, l'.dropWhile Char.isDigit)
  else .error "value out of range"

/-- Hex digit test matching `unicode.Is(unicode.Hex_Digit, _)` on ASCII. -/
def isHexDigit (c : Char) : Bool :=
  c.isDigit || ('a' ≤ c && c ≤ 'f') || ('A' ≤ c && c ≤ 'F')

/-- Numeric value of a hex digit character. -/
def hexVal (c : Char) : Nat :=
  if c.isDigit then c.toNat - '0'.toNat
  else if 'a' ≤ c && c ≤ 'f' then c.toNat - 'a'.toNat + 10
  else c.toNat - 'A'.toNat + 10

/-- Base-16 value of a hex digit run. -/
def hexToNat (ds : List Char) : Nat := ds.foldl (fun a c => 16 * a + hexVal c) 0

/-- The `lexable.lexHexNumber` method: maximal run of hex digits fed to
`strconv.ParseInt(_, 16, 64)`. -/
def lexHexNumber (l : List Char) : Except String (Nat × List Char) :=
  let l' := chomp l
  let ds := l'.takeWhile isHexDigit
  if ds = [] then .error "number not found in string"
  else if hexToNat ds < 2 ^ 63 then .ok (hexToNat ds, l'.dropWhile isHexDigit)
  else .error "value out of range"

/-- The `lexable.lexWord` method: maximal run of non-space characters,
with underscores rendered as spaces; it never fails. -/
def lexWord (l : List Char) : List Char × List Char :=
  let l' := chomp l
  ((l'.takeWhile (fun c => !goIsSpace c)).map (fun c => if c = '_' then ' ' else c),
   l'.dropWhile (fun c => !goIsSpace c))

/-- The `lexable.lexOffset` method: exactly eight decimal digits, taken
verbatim as an opaque key component. -/
def lexOffset (l : List Char) : Except String (List Char × List Char) :=
  let l' := chomp l
  if l'.length < 8 then .error "invalid offset"
  else if (l'.take 8).all Char.isDigit then .ok (l'.take 8, l'.drop 8)
  else .error "invalid chars in offset"

/-- Parts of speech (the `s` satellite code is folded into `Adjective`
by the lexer, so only four values exist). -/
inductive PartOfSpeech where
  | Noun
  | Verb
  | Adjective
  | Adverb
deriving DecidableEq

/-- The `lexable.lexPOS` method. -/
def lexPOS (l : List Char) : Except String (PartOfSpeech × List Char) :=
  match chomp l with
  | [] => .error "unexpected end of input"
  | c :: rest =>
    if c = 'n' then .ok (.Noun, rest)
    else if c = 'v' then .ok (.Verb, rest)
    else if c = 'a' then .ok (.Adjective, rest)
    else if c = 's' then .ok (.Adjective, rest)
    else if c = 'r' then .ok (.Adverb, rest)
    else .error "invalid part of speech"

/-- Relation kind bits, in the iota order of the Go `Relation` constants. -/
def AlsoSee : Nat := 1 <<< 0

def Antonym : Nat := 1 <<< 1

def Attribute : Nat := 1 <<< 2

def Cause : Nat := 1 <<< 3

def DerivationallyRelatedForm : Nat := 1 <<< 4

def DerivedFromAdjective : Nat := 1 <<< 5

def InDomainRegion : Nat := 1 <<< 6

def InDomainTopic : Nat := 1 <<< 7

def InDomainUsage : Nat := 1 <<< 8

def ContainsDomainRegion : Nat := 1 <<< 9

def ContainsDomainTopic : Nat := 1 <<< 10

def ContainsDomainUsage : Nat := 1 <<< 11

def Entailment : Nat := 1 <<< 12

def Hypernym : Nat := 1 <<< 13

def InstanceHypernym : Nat := 1 <<< 14

def InstanceHyponym : Nat := 1 <<< 15

def Hyponym : Nat := 1 <<< 16

def MemberMeronym : Nat := 1 <<< 17

def PartMeronym : Nat := 1 <<< 18

def SubstanceMeronym : Nat := 1 <<< 19

def MemberHolonym : Nat := 1 <<< 20

def PartHolonym : Nat := 1 <<< 21

def SubstanceHolonym : Nat := 1 <<< 22

def ParticipleOfVerb : Nat := 1 <<< 23

def RelatedForm : Nat := 1 <<< 24

def SimilarTo : Nat := 1 <<< 25

def VerbGroup : Nat := 1 <<< 26

def Pertainym : Nat := DerivedFromAdjective

/-- The pointer-symbol table of `lexable.lexRelationType`. -/
def relationOfSymbol (w : List Char) : Option Nat :=
  if w = ['!'] then some Antonym
  else if w = ['#', 'm'] then some MemberHolonym
  else if w = ['#', 'p'] then some PartHolonym
  else if w = ['#', 's'] then some SubstanceHolonym
  else if w = ['$'] then some VerbGroup
  else if w = ['%', 'm'] then some MemberMeronym
  else if w = ['%', 'p'] then some PartMeronym
  else if w = ['%', 's'] then some SubstanceMeronym
  else if w = ['&'] then some SimilarTo
  else if w = ['*'] then some Entailment
  else if w = ['+'] then some DerivationallyRelatedForm
  else if w = ['-', 'c'] then some InDomainTopic
  else if w = ['-', 'r'] then some InDomainRegion
  else if w = ['-', 'u'] then some InDomainUsage
  else if w = [';', 'c'] then some ContainsDomainTopic
  else if w = [';', 'r'] then some ContainsDomainRegion
  else if w = [';', 'u'] then some ContainsDomainUsage
  else if w = ['<'] then some ParticipleOfVerb
  else if w = ['='] then some Attribute
  else if w = ['>'] then some Cause
  else if w = ['@'] then some Hypernym
  else if w = ['@', 'i'] then some InstanceHypernym
  else if w = ['\\'] then some Pertainym
  else if w = ['^'] then some AlsoSee
  else if w = ['~'] then some Hyponym
  else if w = ['~', 'i'] then some InstanceHyponym
  else none

/-- The `lexable.lexRelationType` method. -/
def lexRelationType (l : List Char) : Except String (Nat × List Char) :=
  let wr := lexWord l
  match relationOfSymbol wr.1 with
  | some r => .ok (r, wr.2)
  | none => .error "unrecognized pointer type"

/-- The `strings.TrimSpace` trim used on the gloss text. -/
def trimSpace (l : List Char) : List Char :=
  ((l.dropWhile goIsSpace).reverse.dropWhile goIsSpace).reverse

/-- The `lexable.lexGloss` method: expect a literal bar, then return the
trimmed remainder of the line verbatim. -/
def lexGloss (l : List Char) : Except String (List Char) :=
  match chomp l with
  | [] => .error "definition expected"
  | c :: rest => if c = '|' then .ok (trimSpace rest) else .error "definition expected"

/-- The `syntacticRelation` struct: a word-to-word edge; `target` is an
arena index standing for the Go `*cluster`, `wordNumber` the uint8
destination word index. -/
structure syntacticRelation where
  rel : Nat
  target : Nat
  wordNumber : Nat
deriving DecidableEq

/-- The `semanticRelation` struct: a cluster-to-cluster edge. -/
structure semanticRelation where
  rel : Nat
  target : Nat
deriving DecidableEq

/-- The `word` struct: one member word of a synset. -/
structure word where
  sense : Nat
  word : List Char
  relations : List syntacticRelation
deriving DecidableEq

/-- The `cluster` struct: one synset node. -/
structure cluster where
  pos : PartOfSpeech
  words : List word
  gloss : List Char
  relations : List semanticRelation
  debug : List Char
deriving DecidableEq

/-- The `parsedRel` struct produced by the parser's pointer loop. -/
structure parsedRel where
  pos : PartOfSpeech
  rel : Nat
  offset : List Char
  isSemantic : Bool
  source : Nat
  dest : Nat
deriving DecidableEq

/-- The `parsed` struct: one parsed data line. -/
structure parsed where
  byteOffset : List Char
  pos : PartOfSpeech
  fileNum : Nat
  words : List word
  gloss : List Char
  rels : List parsedRel
deriving DecidableEq

/-- Relation-pointer construction from `parseLine`'s pointer loop: a
`nature` of zero marks a semantic relation; a nonzero `nature` packs
1-based source and destination word indices in its two low bytes, each
stored after the Go uint8 conversion and subtraction of one. -/
def decodeRel (rt : Nat) (p : PartOfSpeech) (off : List Char) (nature : Nat) : parsedRel :=
  if nature = 0 then
    { rel := rt, pos := p, offset := off, isSemantic := true, source := 0, dest := 0 }
  else
    { rel := rt, pos := p, offset := off, isSemantic := false,
      source := ((nature >>> 8) % 256 + 255) % 256,
      dest := (nature % 256 + 255) % 256 }

/-- The word loop of `parseLine` (`wordcount` iterations of word plus
hex sense id, the sense stored through a uint8 conversion). -/
def parseWords : Nat → List Char → Except String (List word × List Char)
  | 0, l => .ok ([], l)
  | n + 1, l =>
    let vw := lexWord l
    match lexHexNumber vw.2 with
    | .error _ => .error "sense id expected"
    | .ok (sense, l1) =>
      match parseWords n l1 with
      | .error e => .error e
      | .ok (ws, l2) => .ok ({ sense := sense % 256, word := vw.1, relations := [] } :: ws, l2)

/-- The pointer loop of `parseLine` (`pcount` iterations of relation
symbol, target offset, target part of speech and hex `nature`). -/
def parsePointers : Nat → List Char → Except String (List parsedRel × List Char)
  | 0, l => .ok ([], l)
  | n + 1, l =>
    match lexRelationType l with
    | .error e => .error e
    | .ok (rt, l1) =>
      match lexOffset l1 with
      | .error e => .error e
      | .ok (off, l2) =>
        match lexPOS l2 with
        | .error e => .error e
        | .ok (p, l3) =>
          match lexHexNumber l3 with
          | .error e => .error e
          | .ok (nature, l4) =>
            match parsePointers n l4 with
            | .error e => .error e
            | .ok (rs, l5) => .ok (decodeRel rt p off nature :: rs, l5)

/-- The optional frame loop of `parseLine`: each frame is a literal
plus sign, a decimal frame number and a hex word number. -/
def parseFrames : Nat → List Char → Except String (List Char)
  | 0, l => .ok l
  | n + 1, l =>
    match chomp l with
    | [] => .error "missing frame marker"
    | c :: rest =>
      if c = '+' then
        match lexDecimalNumber rest with
        | .error e => .error ("malformed frame number: " ++ e)
        | .ok (_, l1) =>
          match lexHexNumber l1 with
          | .error e => .error ("malformed word number in frame: " ++ e)
          | .ok (_, l2) => parseFrames n l2
      else .error "missing frame marker"

/-- The `parseLine` function.  `.ok none` is the comment-line outcome: the
line did not start with a valid 8-digit offset but did start with a
decimal number equal to the current 1-based line number. -/
def parseLine (data : List Char) (line : Nat) : Except String (Option parsed) :=
  let l := chomp data
  match lexOffset l with
  | .error _ =>
    match lexDecimalNumber l with
    | .ok (n, _) =>
      if n = line then .ok none
      else .error "can't parse line, expected comment or Offset"
    | .error _ => .error "can't parse line, expected comment or Offset"
  | .ok (byteOffset, l0) =>
    match lexDecimalNumber l0 with
    | .error e => .error ("filenumber expected: " ++ e)
    | .ok (filenum, l1) =>
      match lexPOS l1 with
      | .error e => .error ("part of speech expected: " ++ e)
      | .ok (pos, l2) =>
        match lexHexNumber l2 with
        | .error e => .error ("wordcount expected: " ++ e)
        | .ok (wordcount, l3) =>
          match parseWords wordcount l3 with
          | .error e => .error e
          | .ok (ws, l4) =>
            match lexDecimalNumber l4 with
            | .error e => .error ("pointer count expected: " ++ e)
            | .ok (pcount, l5) =>
              match parsePointers pcount l5 with
              | .error e => .error e
              | .ok (rels, l6) =>
                match lexDecimalNumber l6 with
                | .error _ =>
                  match lexGloss l6 with
                  | .error e => .error e
                  | .ok g =>
                    .ok (some { byteOffset := byteOffset, pos := pos, fileNum := filenum,
                                words := ws, gloss := g, rels := rels })
                | .ok (frameCount, l7) =>
                  match parseFrames frameCount l7 with
                  | .error e => .error e
                  | .ok l8 =>
                    match lexGloss l8 with
                    | .error e => .error e
                    | .ok g =>
                      .ok (some { byteOffset := byteOffset, pos := pos, fileNum := filenum,
                                  words := ws, gloss := g, rels := rels })

/-- The Go zero value `&cluster{}` used for placeholder creation. -/
def emptyCluster : cluster :=
  { pos := .Noun, words := [], gloss := [], relations := [], debug := [] }

/-- Pointer dereference: arena cell `i` (total; construction only ever
dereferences live indices). -/
def getC (a : List cluster) (i : Nat) : cluster := (a[i]?).getD emptyCluster

/-- The builder state of `New`: the heap of allocated clusters and the
`byOffset` identity table, modelled as an insertion-ordered
association list from (offset string, part of speech) to arena index. -/
structure BuildSt where
  arena : List cluster
  byOffset : List ((List Char × PartOfSpeech) × Nat)
deriving DecidableEq

/-- Association-list lookup in the `byOffset` table. -/
def lookupIx : List ((List Char × PartOfSpeech) × Nat) → (List Char × PartOfSpeech) → Option Nat
  | [], _ => none
  | (k', v) :: rest, k => if k' = k then some v else lookupIx rest k

/-- The `byOffset` fetch-or-create step of `New` (`c = &cluster{}`
placeholder allocation on a miss). -/
def resolveOrCreate (st : BuildSt) (k : List Char × PartOfSpeech) : Nat × BuildSt :=
  match lookupIx st.byOffset k with
  | some i => (i, st)
  | none =>
    (st.arena.length,
     { arena := st.arena ++ [emptyCluster], byOffset := st.byOffset ++ [(k, st.arena.length)] })

/-- Append a syntactic relation to the relation list of word `i`
(`c.words[r.source].relations = append(...)`). -/
def appendWordRel (ws : List word) (i : Nat) (sr : syntacticRelation) : List word :=
  match ws[i]? with
  | some w => ws.set i { w with relations := w.relations ++ [sr] }
  | none => ws

/-- The relation-linking loop in `New`'s per-entry callback: resolve or
create the target, then attach a semantic relation to the cluster or a
syntactic relation to the source word after the bounds check on the
source word index. -/
def processRels (ci : Nat) : List parsedRel → BuildSt → Except String BuildSt
  | [], st => .ok st
  | r :: rest, st =>
    let rc := resolveOrCreate st (r.offset, r.pos)
    let ti := rc.1
    let st1 := rc.2
    let c := getC st1.arena ci
    if r.isSemantic then
      let c' := { c with relations := c.relations ++ [{ rel := r.rel, target := ti }] }
      processRels ci rest { st1 with arena := st1.arena.set ci c' }
    else
      if c.words.length ≤ r.source then
        .error "error parsing relations, bogus source"
      else
        let sr : syntacticRelation := { rel := r.rel, target := ti, wordNumber := r.dest }
        let c' := { c with words := appendWordRel c.words r.source sr }
        processRels ci rest { st1 with arena := st1.arena.set ci c' }

/-- One parsed entry's effect in `New`'s callback: resolve the entry's
own cluster, overwrite its part of speech, word list, gloss and origin
marker, then link its relations. -/
def processEntry (st : BuildSt) (p : parsed) : Except String BuildSt :=
  let rc := resolveOrCreate st (p.byteOffset, p.pos)
  let ci := rc.1
  let st1 := rc.2
  let c := getC st1.arena ci
  let c' := { c with pos := p.pos, words := p.words, gloss := p.gloss, debug := p.byteOffset }
  processRels ci p.rels { st1 with arena := st1.arena.set ci c' }

/-- The scan phase of `New` over the stream of parsed entries. -/
def buildEntries : List parsed → BuildSt → Except String BuildSt
  | [], st => .ok st
  | p :: rest, st =>
    match processEntry st p with
    | .error e => .error e
    | .ok st' => buildEntries rest st'

/-- The `Handle` struct, together with the arena its `*cluster`
pointers live in. -/
structure Handle where
  arena : List cluster
  index : List (List Char × List Nat)
  db : List Nat
deriving DecidableEq

/-- Lemma-index lookup (`h.index[key]`). -/
def indexFind : List (List Char × List Nat) → List Char → Option (List Nat)
  | [], _ => none
  | (k', v) :: rest, k => if k' = k then some v else indexFind rest k

/-- Lemma-index insertion (`v = append(v, c); h.index[key] = v`). -/
def indexInsert : List (List Char × List Nat) → List Char → Nat → List (List Char × List Nat)
  | [], k, i => [(k, [i])]
  | (k', v) :: rest, k, i =>
    if k' = k then (k', v ++ [i]) :: rest else (k', v) :: indexInsert rest k i

/-- Index every member word of cluster `i` under its normalized form. -/
def indexClusterWords (ix : List (List Char × List Nat)) (i : Nat) :
    List word → List (List Char × List Nat)
  | [] => ix
  | w :: ws => indexClusterWords (indexInsert ix (normalize w.word) i) i ws

/-- The post-scan loop of `New`: the per-node integrity check (≥ 1
member word), the iteration slice and the lemma index. -/
def postPass (arena : List cluster) :
    List ((List Char × PartOfSpeech) × Nat) → List Nat → List (List Char × List Nat) →
    Except String (List Nat × List (List Char × List Nat))
  | [], db, ix => .ok (db, ix)
  | (_, i) :: rest, db, ix =>
    let c := getC arena i
    if c.words = [] then .error "internal consistency error: cluster without words"
    else postPass arena rest (db ++ [i]) (indexClusterWords ix i c.words)

/-- The graph-building core of `New`, over the stream of parsed
entries (directory walking and file decoding are outside the core). -/
def buildGraph (entries : List parsed) : Except String Handle :=
  match buildEntries entries { arena := [], byOffset := [] } with
  | .error e => .error e
  | .ok st =>
    match postPass st.arena st.byOffset [] [] with
    | .error e => .error e
    | .ok (db, ix) => .ok { arena := st.arena, index := ix, db := db }

/-- The `Lookup` struct: a search result, carrying the searched word
and the found cluster (an arena index standing for the Go pointer). -/
structure Lookup where
  word : List Char
  cluster : Nat
deriving DecidableEq

/-- The `Criteria` struct of `Handle.Lookup`. -/
structure Criteria where
  Matching : List Char
  POS : List PartOfSpeech
deriving DecidableEq

/-- The `PartOfSpeechList.Contains` loop. -/
def posContains : List PartOfSpeech → PartOfSpeech → Bool
  | [], _ => false
  | g :: rest, want => if g = want then true else posContains rest want

/-- The semantic-relation loop of `Lookup.Related`; `none` models the
panic on a nil target or an out-of-range first-word access
(`rel.target.words[0].word`). -/
def semLookups (arena : List cluster) (r : Nat) : List semanticRelation → Option (List Lookup)
  | [] => some []
  | rel :: rest =>
    if rel.rel &&& r ≠ 0 then
      match arena[rel.target]? with
      | none => none
      | some tc =>
        match tc.words[0]? with
        | none => none
        | some w0 =>
          match semLookups arena r rest with
          | none => none
          | some tail => some ({ word := w0.word, cluster := rel.target } :: tail)
    else semLookups arena r rest

/-- One member word's syntactic-relation loop in `Lookup.Related`;
`none` models the panic on `rel.target.words[rel.wordNumber].word`
when the recorded destination word index is out of range. -/
def synLookups (arena : List cluster) (r : Nat) : List syntacticRelation → Option (List Lookup)
  | [] => some []
  | rel :: rest =>
    if rel.rel &&& r ≠ 0 then
      match arena[rel.target]? with
      | none => none
      | some tc =>
        match tc.words[rel.wordNumber]? with
        | none => none
        | some tw =>
          match synLookups arena r rest with
          | none => none
          | some tail => some ({ word := tw.word, cluster := rel.target } :: tail)
    else synLookups arena r rest

/-- The member-word scan of `Lookup.Related`: relations are collected
from every member word whose stored string equals the key. -/
def synFromWords (arena : List cluster) (r : Nat) (key : List Char) :
    List word → Option (List Lookup)
  | [] => some []
  | w :: rest =>
    if key = w.word then
      match synLookups arena r w.relations with
      | none => none
      | some l1 =>
        match synFromWords arena r key rest with
        | none => none
        | some l2 => some (l1 ++ l2)
    else synFromWords arena r key rest

/-- The `Lookup.Related` method: semantic relations of the cluster
whose kind intersects the mask, then syntactic relations of member
words equal to the normalized searched word. -/
def Lookup.Related (arena : List Wnram.cluster) (w : Lookup) (r : Nat) : Option (List Lookup) :=
  match arena[w.cluster]? with
  | none => none
  | some c =>
    match semLookups arena r c.relations with
    | none => none
    | some sems =>
      match synFromWords arena r (normalize w.word) c.words with
      | none => none
      | some syns => some (sems ++ syns)

/-- The result-building loop of `Handle.Lookup`: filter the bucket by
part of speech and pair each surviving cluster with the original,
un-normalized search text. -/
def lookupFilter (arena : List cluster) (matching : List Char) (ps : List PartOfSpeech) :
    List Nat → List Lookup
  | [] => []
  | ci :: rest =>
    if ps ≠ [] ∧ posContains ps (getC arena ci).pos = false then
      lookupFilter arena matching ps rest
    else
      { word := matching, cluster := ci } :: lookupFilter arena matching ps rest

/-- The `Handle.Lookup` method. -/
def Handle.Lookup (h : Handle) (crit : Criteria) : Except String (List Wnram.Lookup) :=
  if crit.Matching = [] then .error "empty string passed as criteria to lookup"
  else
    .ok (lookupFilter h.arena crit.Matching crit.POS
          ((indexFind h.index (normalize crit.Matching)).getD []))

/-- The traversal loop of `Handle.Iterate`; `none` models the panic on
`c.words[0]` for a visited empty cluster. -/
def iterateAux {E : Type} (arena : List cluster) (pos : List PartOfSpeech)
    (cb : Lookup → Except E Unit) : List Nat → Option (Except E Unit)
  | [] => some (.ok ())
  | ci :: rest =>
    match arena[ci]? with
    | none => none
    | some c =>
      if pos ≠ [] ∧ posContains pos c.pos = false then iterateAux arena pos cb rest
      else
        match c.words[0]? with
        | none => none
        | some w0 =>
          match cb { word := w0.word, cluster := ci } with
          | .error e => some (.error e)
          | .ok _ => iterateAux arena pos cb rest

/-- The `Handle.Iterate` method. -/
def Handle.Iterate {E : Type} (h : Handle) (pos : List PartOfSpeech)
    (cb : Wnram.Lookup → Except E Unit) : Option (Except E Unit) :=
  iterateAux h.arena pos cb h.db

/-- The part-of-speech filter predicate of `Iterate`
(`!pos.Empty() && !pos.Contains(c.pos)` skips the node). -/
def passes (pos : List PartOfSpeech) (c : cluster) : Bool :=
  if pos ≠ [] ∧ posContains pos c.pos = false then false else true

/-- The result view `Iterate` anchors at a node: its first member word
paired with the node. -/
def anchorLookup (arena : List cluster) (ci : Nat) : Option Lookup :=
  match arena[ci]? with
  | none => none
  | some c =>
    match c.words[0]? with
    | none => none
    | some w0 => some { word := w0.word, cluster := ci }

/-- The sequence of result views a full `Iterate` run presents to the
visitor: the filtered iteration slice, each node anchored at its first
member word. -/
def visitL (arena : List cluster) (pos : List PartOfSpeech) (dbl : List Nat) : List Lookup :=
  (dbl.filter (fun ci => passes pos (getC arena ci))).filterMap (anchorLookup arena)

/-- The node set the specification's sentence describes for `Related`:
targets of semantic relations whose kind intersects the mask, plus
targets of syntactic relations originating at the member word that was
searched, i.e. the member word matching the searched text up to
normalization. -/
def specRelatedNode (arena : List cluster) (w : Lookup) (r : Nat) (t : Nat) : Prop :=
  ∃ c, arena[w.cluster]? = some c ∧
    ((∃ rel ∈ c.relations, rel.rel &&& r ≠ 0 ∧ rel.target = t) ∨
     (∃ mw ∈ c.words, normalize mw.word = normalize w.word ∧
        ∃ rel ∈ mw.relations, rel.rel &&& r ≠ 0 ∧ rel.target = t))

/-- The node set `Related` actually produces: as `specRelatedNode`, but
a member word contributes its syntactic relations only when its stored
string literally equals the normalization of the searched text. -/
def codeRelatedNode (arena : List cluster) (w : Lookup) (r : Nat) (t : Nat) : Prop :=
  ∃ c, arena[w.cluster]? = some c ∧
    ((∃ rel ∈ c.relations, rel.rel &&& r ≠ 0 ∧ rel.target = t) ∨
     (∃ mw ∈ c.words, mw.word = normalize w.word ∧
        ∃ rel ∈ mw.relations, rel.rel &&& r ≠ 0 ∧ rel.target = t))

/-- Success test for `Except` results. -/
def exceptIsOk {ε α : Type} : Except ε α → Bool
  | .ok _ => true
  | .error _ => false

/-- The claim's reading of a comment line: the line consists solely of
a decimal number (surrounding whitespace aside) equal to the 1-based
line number. -/
def isSoleDecimal (data : List Char) (line : Nat) : Prop :=
  (chomp data).takeWhile Char.isDigit ≠ [] ∧
  digitsToNat ((chomp data).takeWhile Char.isDigit) = line ∧
  ((chomp data).dropWhile Char.isDigit).all goIsSpace = true

/-- What `parseLine` actually tests before declaring a comment line:
the chomped line starts with a nonempty decimal digit run, in int64
range, whose value equals the 1-based line number; anything after the
digit run is ignored. -/
def beginsWithLineNumber (data : List Char) (line : Nat) : Prop :=
  (chomp data).takeWhile Char.isDigit ≠ [] ∧
  digitsToNat ((chomp data).takeWhile Char.isDigit) < 2 ^ 63 ∧
  digitsToNat ((chomp data).takeWhile Char.isDigit) = line

instance (data : List Char) (line : Nat) : Decidable (isSoleDecimal data line) := by
  unfold isSoleDecimal
  infer_instance

instance (data : List Char) (line : Nat) : Decidable (beginsWithLineNumber data line) := by
  unfold beginsWithLineNumber
  infer_instance

/-- Fixture word: "good". -/
def wGood : List Char := ['g', 'o', 'o', 'd']

/-- Fixture search text: " Good " (same normalization as "good"). -/
def wGoodCapPad : List Char := [' ', 'G', 'o', 'o', 'd', ' ']

/-- Fixture word: "bad". -/
def wBad : List Char := ['b', 'a', 'd']

/-- Fixture word: "Earth" (a capitalized stored member word). -/
def wEarth : List Char := ['E', 'a', 'r', 't', 'h']

/-- Fixture offset key "00000001". -/
def off1 : List Char := ['0', '0', '0', '0', '0', '0', '0', '1']

/-- Fixture offset key "00000002". -/
def off2 : List Char := ['0', '0', '0', '0', '0', '0', '0', '2']

/-- An entry stream whose single syntactic relation records an
out-of-range destination word index (5) into a one-word target. -/
def ex9 : List parsed :=
  [{ byteOffset := off1, pos := .Adjective, fileNum := 0,
     words := [{ sense := 1, word := wGood, relations := [] }],
     gloss := [],
     rels := [{ rel := Antonym, pos := .Adjective, offset := off2,
                isSemantic := false, source := 0, dest := 5 }] },
   { byteOffset := off2, pos := .Adjective, fileNum := 0,
     words := [{ sense := 1, word := wBad, relations := [] }],
     gloss := [], rels := [] }]

/-- The handle `buildGraph` produces on `ex9`. -/
def ex9H : Handle := (buildGraph ex9).toOption.getD { arena := [], index := [], db := [] }

/-- An entry stream with a capitalized member word "Earth" carrying a
syntactic relation to the cluster of "bad". -/
def ex3 : List parsed :=
  [{ byteOffset := off1, pos := .Noun, fileNum := 0,
     words := [{ sense := 1, word := wEarth, relations := [] }],
     gloss := [],
     rels := [{ rel := Antonym, pos := .Noun, offset := off2,
                isSemantic := false, source := 0, dest := 0 }] },
   { byteOffset := off2, pos := .Noun, fileNum := 0,
     words := [{ sense := 1, word := wBad, relations := [] }],
     gloss := [], rels := [] }]

/-- The handle `buildGraph` produces on `ex3`. -/
def ex3H : Handle := (buildGraph ex3).toOption.getD { arena := [], index := [], db := [] }

/-- A two-cluster arena: "good" has a semantic Hypernym relation and a
syntactic Antonym relation, both targeting the cluster of "bad". -/
def arena2 : List cluster :=
  [{ pos := .Adjective,
     words := [{ sense := 1, word := wGood,
                 relations := [{ rel := Antonym, target := 1, wordNumber := 0 }] }],
     gloss := [], relations := [{ rel := Hypernym, target := 1 }], debug := off1 },
   { pos := .Adjective, words := [{ sense := 1, word := wBad, relations := [] }],
     gloss := [], relations := [], debug := off2 }]

/-- An entry whose syntactic relation names source word index 3 in a
one-word entry (out of range for its own word list). -/
def ex6 : List parsed :=
  [{ byteOffset := off1, pos := .Noun, fileNum := 0,
     words := [{ sense := 1, word := wGood, relations := [] }],
     gloss := [],
     rels := [{ rel := Antonym, pos := .Noun, offset := off2,
                isSemantic := false, source := 3, dest := 0 }] }]

/-- An entry stream that references offset "00000002" without ever
defining it, leaving a dangling placeholder cluster. -/
def ex1bad : List parsed :=
  [{ byteOffset := off1, pos := .Noun, fileNum := 0,
     words := [{ sense := 1, word := wGood, relations := [] }],
     gloss := [],
     rels := [{ rel := Hypernym, pos := .Noun, offset := off2,
                isSemantic := true, source := 0, dest := 0 }] }]

/-- The builder state after scanning `ex1bad`. -/
def ex1St : BuildSt :=
  (buildEntries ex1bad { arena := [], byOffset := [] }).toOption.getD
    { arena := [], byOffset := [] }

/-- The input line "2 junk". -/
def line2junk : List Char := ['2', ' ', 'j', 'u', 'n', 'k']

theorem chomp_chomp (l : List Char) : chomp (chomp l) = chomp l := by
  induction l with
  | nil => rfl
  | cons c rest ih =>
    by_cases h : goIsSpace c
    · simpa [chomp, h] using ih
    · simp [chomp, h]

theorem ne_zero_iff_testBit (n : Nat) : n ≠ 0 ↔ ∃ i, n.testBit i = true := by
  constructor
  · intro h
    by_contra hc
    push_neg at hc
    exact h (Nat.zero_of_testBit_eq_false fun i => by simpa using hc i)
  · rintro ⟨i, hi⟩ rfl
    simp [Nat.zero_testBit] at hi

theorem and_or_mask (r a b : Nat) : r &&& (a ||| b) ≠ 0 ↔ r &&& a ≠ 0 ∨ r &&& b ≠ 0 := by
  simp only [ne_zero_iff_testBit, Nat.testBit_land, Nat.testBit_lor]
  constructor
  · rintro ⟨i, hi⟩
    simp only [Bool.and_eq_true, Bool.or_eq_true] at hi
    rcases hi with ⟨h1, h2 | h2⟩
    · exact Or.inl ⟨i, by simp [h1, h2]⟩
    · exact Or.inr ⟨i, by simp [h1, h2]⟩
  · rintro (⟨i, hi⟩ | ⟨i, hi⟩) <;> simp only [Bool.and_eq_true] at hi
    · exact ⟨i, by simp [hi.1, hi.2]⟩
    · exact ⟨i, by simp [hi.1, hi.2]⟩

theorem getC_append_empty : ∀ (a : List cluster) (i : Nat), getC (a ++ [emptyCluster]) i = getC a i
  | [], 0 => rfl
  | [], _ + 1 => by simp [getC]
  | _ :: _, 0 => by simp [getC]
  | _ :: a, i + 1 => by simpa [getC] using getC_append_empty a i

theorem getC_resolve (st : BuildSt) (k : List Char × PartOfSpeech) (i : Nat) :
    getC (resolveOrCreate st k).2.arena i = getC st.arena i := by
  rcases h : lookupIx st.byOffset k with _ | j
  · simp [resolveOrCreate, h, getC_append_empty]
  · simp [resolveOrCreate, h]

theorem getC_set_self (a : List cluster) (i : Nat) (c : cluster) :
    getC (a.set i c) i = if i < a.length then c else getC a i := by
  rcases Nat.lt_or_ge i a.length with h | h
  · simp [getC, List.getElem?_set_self h, h]
  · rw [List.set_eq_of_length_le h]
    simp [Nat.not_lt.mpr h]

theorem appendWordRel_length (ws : List word) (i : Nat) (sr : syntacticRelation) :
    (appendWordRel ws i sr).length = ws.length := by
  rcases h : ws[i]? with _ | w <;> simp [appendWordRel, h]

/-- C5: in a parsed relation pointer, a `nature` of zero yields a
semantic relation; a nonzero `nature` yields a syntactic relation
whose source word index is the high byte of `nature` minus one and
whose destination word index is the low byte of `nature` minus one
(the file's 1-based indices converted to 0-based). -/
theorem c5_nature_decoding (rt : Nat) (p : PartOfSpeech) (off : List Char) (nature : Nat)
    (h0 : nature ≠ 0) (hs : 1 ≤ (nature >>> 8) % 256) (hd : 1 ≤ nature % 256) :
    (decodeRel rt p off 0).isSemantic = true ∧
    (decodeRel rt p off nature).isSemantic = false ∧
    (decodeRel rt p off nature).source = (nature >>> 8) % 256 - 1 ∧
    (decodeRel rt p off nature).dest = nature % 256 - 1 := by
  refine ⟨rfl, ?_, ?_, ?_⟩ <;> simp only [decodeRel, if_neg h0]
  · omega
  · omega

/-- Witness for C5 at `nature = 515` (high byte 2, low byte 3). -/
theorem c5_nature_decoding_witness :
    (decodeRel 1 PartOfSpeech.Noun off1 0).isSemantic = true ∧
    (decodeRel 1 PartOfSpeech.Noun off1 515).isSemantic = false ∧
    (decodeRel 1 PartOfSpeech.Noun off1 515).source = (515 >>> 8) % 256 - 1 ∧
    (decodeRel 1 PartOfSpeech.Noun off1 515).dest = 515 % 256 - 1 :=
  c5_nature_decoding 1 PartOfSpeech.Noun off1 515 (by decide) (by decide) (by decide)

/-- C9: construction does not validate the destination word index of a
syntactic relation: `ex9` records destination index 5 into a one-word
target yet loads successfully; on the resulting handle, `Related`
indexes the target cluster's word list out of range (modelled by
`none`) as soon as that relation's kind intersects the mask, while a
non-intersecting mask never reaches the bad index. -/
theorem c9_unvalidated_destination :
    buildGraph ex9 = Except.ok ex9H ∧
    Handle.Lookup ex9H { Matching := wGood, POS := [] } =
      Except.ok [{ word := wGood, cluster := 0 }] ∧
    Lookup.Related ex9H.arena { word := wGood, cluster := 0 } Antonym = none ∧
    Lookup.Related ex9H.arena { word := wGood, cluster := 0 } Hypernym = some [] :=
  ⟨rfl, rfl, rfl, rfl⟩

/-- C4 counterexample: the line "2 junk" as physical line 2 does not
begin with a valid 8-digit offset and does not consist solely of a
decimal number, yet `parseLine` reports the benign no-entry outcome
rather than an error. -/
theorem c4_counterexample :
    exceptIsOk (lexOffset (chomp line2junk)) = false ∧
    parseLine line2junk 2 = Except.ok none ∧
    ¬ isSoleDecimal line2junk 2 :=
  ⟨rfl, rfl, by decide⟩

/-- C4 (amended): when a line does not begin with a valid 8-digit
offset, `parseLine` produces the no-entry outcome exactly when the
chomped line begins with a decimal digit run, in int64 range, whose
value equals the current 1-based line number — trailing content after
the digit run is not inspected; in every other case it returns an
error. -/
theorem c4_comment_detection (data : List Char) (line : Nat)
    (hoff : exceptIsOk (lexOffset (chomp data)) = false) :
    (parseLine data line = Except.ok none ↔ beginsWithLineNumber data line) ∧
    (¬ beginsWithLineNumber data line → ∃ e, parseLine data line = Except.error e) := by
  rcases hlx : lexOffset (chomp data) with e0 | v
  · have hdec : lexDecimalNumber (chomp data) =
        (if (chomp data).takeWhile Char.isDigit = [] then
          Except.error "number not found in string"
         else if digitsToNat ((chomp data).takeWhile Char.isDigit) < 2 ^ 63 then
           Except.ok (digitsToNat ((chomp data).takeWhile Char.isDigit),
                      (chomp data).dropWhile Char.isDigit)
         else Except.error "value out of range") := by
      simp only [lexDecimalNumber, chomp_chomp]
    by_cases hds : (chomp data).takeWhile Char.isDigit = []
    · rw [if_pos hds] at hdec
      have hpls : parseLine data line =
          Except.error "can't parse line, expected comment or Offset" := by
        simp only [parseLine, hlx, hdec]
      refine ⟨⟨fun h => absurd (hpls ▸ h) (by simp), fun hb => absurd hds hb.1⟩, ?_⟩
      exact fun _ => ⟨_, hpls⟩
    · by_cases hlt : digitsToNat ((chomp data).takeWhile Char.isDigit) < 2 ^ 63
      · rw [if_neg hds, if_pos hlt] at hdec
        by_cases heq : digitsToNat ((chomp data).takeWhile Char.isDigit) = line
        · have hpls : parseLine data line = Except.ok none := by
            simp only [parseLine, hlx, hdec, if_pos heq]
          exact ⟨⟨fun _ => ⟨hds, hlt, heq⟩, fun _ => hpls⟩,
                 fun hb => absurd ⟨hds, hlt, heq⟩ hb⟩
        · have hpls : parseLine data line =
              Except.error "can't parse line, expected comment or Offset" := by
            simp only [parseLine, hlx, hdec, if_neg heq]
          refine ⟨⟨fun h => absurd (hpls ▸ h) (by simp), fun hb => absurd hb.2.2 heq⟩, ?_⟩
          exact fun _ => ⟨_, hpls⟩
      · rw [if_neg hds, if_neg hlt] at hdec
        have hpls : parseLine data line =
            Except.error "can't parse line, expected comment or Offset" := by
          simp only [parseLine, hlx, hdec]
        refine ⟨⟨fun h => absurd (hpls ▸ h) (by simp), fun hb => absurd hb.2.1 hlt⟩, ?_⟩
        exact fun _ => ⟨_, hpls⟩
  · rw [hlx] at hoff
    exact absurd hoff (by simp [exceptIsOk])

/-- Witness for C4 on the line "3" at line number 3. -/
theorem c4_comment_detection_witness :
    (parseLine ['3'] 3 = Except.ok none ↔ beginsWithLineNumber ['3'] 3) ∧
    (¬ beginsWithLineNumber ['3'] 3 → ∃ e, parseLine ['3'] 3 = Except.error e) :=
  c4_comment_detection ['3'] 3 (by decide)

theorem semLookups_mem (arena : List cluster) (r : Nat) :
    ∀ (rels : List semanticRelation) (l : List Lookup), semLookups arena r rels = some l →
      ∀ t, (∃ x ∈ l, x.cluster = t) ↔ ∃ rel ∈ rels, rel.rel &&& r ≠ 0 ∧ rel.target = t := by
  intro rels
  induction rels with
  | nil =>
    intro l h t
    simp only [semLookups] at h
    cases h
    simp
  | cons rel rest ih =>
    intro l h t
    by_cases hc : rel.rel &&& r ≠ 0
    · simp only [semLookups, if_pos hc] at h
      rcases htc : arena[rel.target]? with _ | tc <;> simp only [htc] at h
      · cases h
      · rcases hw0 : tc.words[0]? with _ | w0 <;> simp only [hw0] at h
        · cases h
        · rcases hrec : semLookups arena r rest with _ | tail <;> simp only [hrec] at h
          · cases h
          · cases h
            constructor
            · rintro ⟨x, hx, hxc⟩
              rcases List.mem_cons.mp hx with h1 | h2
              · exact ⟨rel, List.mem_cons_self _ _, hc, by rw [← hxc, h1]⟩
              · rcases (ih tail hrec t).mp ⟨x, h2, hxc⟩ with ⟨rel', hm, hcc, htt⟩
                exact ⟨rel', List.mem_cons_of_mem _ hm, hcc, htt⟩
            · rintro ⟨rel', hm, hcc, htt⟩
              rcases List.mem_cons.mp hm with h1 | h2
              · subst h1
                exact ⟨{ word := w0.word, cluster := rel'.target }, List.mem_cons_self _ _, htt⟩
              · rcases (ih tail hrec t).mpr ⟨rel', h2, hcc, htt⟩ with ⟨x, hx, hxc⟩
                exact ⟨x, List.mem_cons_of_mem _ hx, hxc⟩
    · simp only [semLookups, if_neg hc] at h
      rw [ih l h t]
      constructor
      · rintro ⟨rel', hm, hcc, htt⟩
        exact ⟨rel', List.mem_cons_of_mem _ hm, hcc, htt⟩
      · rintro ⟨rel', hm, hcc, htt⟩
        rcases List.mem_cons.mp hm with h1 | h2
        · subst h1
          exact absurd hcc hc
        · exact ⟨rel', h2, hcc, htt⟩

theorem synLookups_mem (arena : List cluster) (r : Nat) :
    ∀ (rels : List syntacticRelation) (l : List Lookup), synLookups arena r rels = some l →
      ∀ t, (∃ x ∈ l, x.cluster = t) ↔ ∃ rel ∈ rels, rel.rel &&& r ≠ 0 ∧ rel.target = t := by
  intro rels
  induction rels with
  | nil =>
    intro l h t
    simp only [synLookups] at h
    cases h
    simp
  | cons rel rest ih =>
    intro l h t
    by_cases hc : rel.rel &&& r ≠ 0
    · simp only [synLookups, if_pos hc] at h
      rcases htc : arena[rel.target]? with _ | tc <;> simp only [htc] at h
      · cases h
      · rcases hw0 : tc.words[rel.wordNumber]? with _ | tw <;> simp only [hw0] at h
        · cases h
        · rcases hrec : synLookups arena r rest with _ | tail <;> simp only [hrec] at h
          · cases h
          · cases h
            constructor
            · rintro ⟨x, hx, hxc⟩
              rcases List.mem_cons.mp hx with h1 | h2
              · exact ⟨rel, List.mem_cons_self _ _, hc, by rw [← hxc, h1]⟩
              · rcases (ih tail hrec t).mp ⟨x, h2, hxc⟩ with ⟨rel', hm, hcc, htt⟩
                exact ⟨rel', List.mem_cons_of_mem _ hm, hcc, htt⟩
            · rintro ⟨rel', hm, hcc, htt⟩
              rcases List.mem_cons.mp hm with h1 | h2
              · subst h1
                exact ⟨{ word := tw.word, cluster := rel'.target }, List.mem_cons_self _ _, htt⟩
              · rcases (ih tail hrec t).mpr ⟨rel', h2, hcc, htt⟩ with ⟨x, hx, hxc⟩
                exact ⟨x, List.mem_cons_of_mem _ hx, hxc⟩
    · simp only [synLookups, if_neg hc] at h
      rw [ih l h t]
      constructor
      · rintro ⟨rel', hm, hcc, htt⟩
        exact ⟨rel', List.mem_cons_of_mem _ hm, hcc, htt⟩
      · rintro ⟨rel', hm, hcc, htt⟩
        rcases List.mem_cons.mp hm with h1 | h2
        · subst h1
          exact absurd hcc hc
        · exact ⟨rel', h2, hcc, htt⟩

theorem synFromWords_mem (arena : List cluster) (r : Nat) (key : List Char) :
    ∀ (ws : List word) (l : List Lookup), synFromWords arena r key ws = some l →
      ∀ t, (∃ x ∈ l, x.cluster = t) ↔
        ∃ mw ∈ ws, mw.word = key ∧ ∃ rel ∈ mw.relations, rel.rel &&& r ≠ 0 ∧ rel.target = t := by
  intro ws
  induction ws with
  | nil =>
    intro l h t
    simp only [synFromWords] at h
    cases h
    simp
  | cons w rest ih =>
    intro l h t
    by_cases hk : key = w.word
    · simp only [synFromWords, if_pos hk] at h
      rcases h1 : synLookups arena r w.relations with _ | l1 <;> simp only [h1] at h
      · cases h
      · rcases h2 : synFromWords arena r key rest with _ | l2 <;> simp only [h2] at h
        · cases h
        · cases h
          constructor
          · rintro ⟨x, hx, hxc⟩
            rcases List.mem_append.mp hx with hxa | hxb
            · rcases (synLookups_mem arena r w.relations l1 h1 t).mp ⟨x, hxa, hxc⟩ with
                ⟨rel, hm, hcc, htt⟩
              exact ⟨w, List.mem_cons_self _ _, hk.symm, rel, hm, hcc, htt⟩
            · rcases (ih l2 h2 t).mp ⟨x, hxb, hxc⟩ with ⟨mw, hmw, hkey, hrest⟩
              exact ⟨mw, List.mem_cons_of_mem _ hmw, hkey, hrest⟩
          · rintro ⟨mw, hmw, hkey, rel, hm, hcc, htt⟩
            rcases List.mem_cons.mp hmw with hw1 | hw2
            · subst hw1
              rcases (synLookups_mem arena r mw.relations l1 h1 t).mpr ⟨rel, hm, hcc, htt⟩ with
                ⟨x, hx, hxc⟩
              exact ⟨x, List.mem_append.mpr (Or.inl hx), hxc⟩
            · rcases (ih l2 h2 t).mpr ⟨mw, hw2, hkey, rel, hm, hcc, htt⟩ with ⟨x, hx, hxc⟩
              exact ⟨x, List.mem_append.mpr (Or.inr hx), hxc⟩
    · simp only [synFromWords, if_neg hk] at h
      rw [ih l h t]
      constructor
      · rintro ⟨mw, hmw, hkey, hrest⟩
        exact ⟨mw, List.mem_cons_of_mem _ hmw, hkey, hrest⟩
      · rintro ⟨mw, hmw, hkey, hrest⟩
        rcases List.mem_cons.mp hmw with hw1 | hw2
        · subst hw1
          exact absurd hkey.symm hk
        · exact ⟨mw, hw2, hkey, hrest⟩

/-- C3 (amended): when `Related` returns a result list, the set of
nodes in it is exactly: targets of semantic relations of the cluster
whose kind intersects the mask, together with targets of syntactic
relations, intersecting the mask, that originate at member words whose
stored string equals the normalized search text. -/
theorem c3_related_exactly (arena : List cluster) (w : Lookup) (r : Nat) (l : List Lookup)
    (h : Lookup.Related arena w r = some l) :
    ∀ t, (∃ x ∈ l, x.cluster = t) ↔ codeRelatedNode arena w r t := by
  intro t
  rcases hc : arena[w.cluster]? with _ | c
  · simp only [Lookup.Related, hc] at h
    cases h
  · simp only [Lookup.Related, hc] at h
    rcases h1 : semLookups arena r c.relations with _ | sems <;> simp only [h1] at h
    · cases h
    · rcases h2 : synFromWords arena r (normalize w.word) c.words with _ | syns <;> simp only [h2] at h
      · cases h
      · cases h
        unfold codeRelatedNode
        constructor
        · rintro ⟨x, hx, hxc⟩
          refine ⟨c, hc, ?_⟩
          rcases List.mem_append.mp hx with hxa | hxb
          · exact Or.inl ((semLookups_mem arena r c.relations sems h1 t).mp ⟨x, hxa, hxc⟩)
          · exact Or.inr
              ((synFromWords_mem arena r (normalize w.word) c.words syns h2 t).mp ⟨x, hxb, hxc⟩)
        · rintro ⟨c', hc', hor⟩
          rw [hc] at hc'
          cases hc'
          rcases hor with hsem | hsyn
          · rcases (semLookups_mem arena r c.relations sems h1 t).mpr hsem with ⟨x, hx, hxc⟩
            exact ⟨x, List.mem_append.mpr (Or.inl hx), hxc⟩
          · rcases (synFromWords_mem arena r (normalize w.word) c.words syns h2 t).mpr hsyn with
              ⟨x, hx, hxc⟩
            exact ⟨x, List.mem_append.mpr (Or.inr hx), hxc⟩

/-- Witness for the amended C3 on `arena2` with the Antonym mask. -/
theorem c3_related_exactly_witness :
    (∃ x ∈ [({ word := wBad, cluster := 1 } : Lookup)], x.cluster = 1) ↔
      codeRelatedNode arena2 { word := wGood, cluster := 0 } Antonym 1 :=
  c3_related_exactly arena2 { word := wGood, cluster := 0 } Antonym
    [{ word := wBad, cluster := 1 }] rfl 1

/-- C3 counterexample: in the handle loaded from `ex3`, the member word
"Earth" (stored capitalized) matches the search text "Earth" up to
normalization and carries an Antonym relation to node 1, so the
claim's description of the result contains node 1; but `Related`
compares the raw stored member word against the normalized search
text, finds no match, and returns the empty list. -/
theorem c3_counterexample :
    buildGraph ex3 = Except.ok ex3H ∧
    Handle.Lookup ex3H { Matching := wEarth, POS := [] } =
      Except.ok [{ word := wEarth, cluster := 0 }] ∧
    Lookup.Related ex3H.arena { word := wEarth, cluster := 0 } Antonym = some [] ∧
    specRelatedNode ex3H.arena { word := wEarth, cluster := 0 } Antonym 1 ∧
    ¬ ∃ x ∈ ([] : List Lookup), x.cluster = 1 := by
  refine ⟨rfl, rfl, rfl, ?_, by simp⟩
  refine ⟨{ pos := .Noun,
            words := [{ sense := 1, word := wEarth,
                        relations := [{ rel := Antonym, target := 1, wordNumber := 0 }] }],
            gloss := [], relations := [], debug := off1 }, rfl, Or.inr ?_⟩
  exact ⟨{ sense := 1, word := wEarth,
           relations := [{ rel := Antonym, target := 1, wordNumber := 0 }] },
         List.mem_cons_self _ _, rfl,
         { rel := Antonym, target := 1, wordNumber := 0 },
         List.mem_cons_self _ _, by decide, rfl⟩

/-- C10: every result the semantic-relation loop of `Related` produces
carries the target cluster of a mask-intersecting semantic relation of
the source cluster, and the word string of that target cluster's first
member word. -/
theorem c10_semantic_result (arena : List cluster) (r : Nat) (rels : List semanticRelation)
    (l : List Lookup) (h : semLookups arena r rels = some l) :
    ∀ x ∈ l, ∃ rel ∈ rels, rel.rel &&& r ≠ 0 ∧ x.cluster = rel.target ∧
      ∃ tc, arena[rel.target]? = some tc ∧ ∃ w0, tc.words[0]? = some w0 ∧ x.word = w0.word := by
  induction rels generalizing l with
  | nil =>
    simp only [semLookups] at h
    cases h
    intro x hx
    cases hx
  | cons rel rest ih =>
    by_cases hc : rel.rel &&& r ≠ 0
    · simp only [semLookups, if_pos hc] at h
      rcases htc : arena[rel.target]? with _ | tc <;> simp only [htc] at h
      · cases h
      · rcases hw0 : tc.words[0]? with _ | w0 <;> simp only [hw0] at h
        · cases h
        · rcases hrec : semLookups arena r rest with _ | tail <;> simp only [hrec] at h
          · cases h
          · cases h
            intro x hx
            rcases List.mem_cons.mp hx with h1 | h2
            · subst h1
              exact ⟨rel, List.mem_cons_self _ _, hc, rfl, tc, htc, w0, hw0, rfl⟩
            · rcases ih tail hrec x h2 with ⟨rel', hm, hcc, hxc, rest'⟩
              exact ⟨rel', List.mem_cons_of_mem _ hm, hcc, hxc, rest'⟩
    · simp only [semLookups, if_neg hc] at h
      intro x hx
      rcases ih l h x hx with ⟨rel', hm, hcc, hxc, rest'⟩
      exact ⟨rel', List.mem_cons_of_mem _ hm, hcc, hxc, rest'⟩

/-- Witness for C10 on `arena2` with the Hypernym mask. -/
theorem c10_semantic_result_witness :
    ∃ rel ∈ (getC arena2 0).relations, rel.rel &&& Hypernym ≠ 0 ∧
      ({ word := wBad, cluster := 1 } : Lookup).cluster = rel.target ∧
      ∃ tc, arena2[rel.target]? = some tc ∧
        ∃ w0, tc.words[0]? = some w0 ∧ ({ word := wBad, cluster := 1 } : Lookup).word = w0.word :=
  c10_semantic_result arena2 Hypernym (getC arena2 0).relations [{ word := wBad, cluster := 1 }]
    rfl { word := wBad, cluster := 1 } (List.mem_cons_self _ _)

theorem semLookups_union (arena : List cluster) (a b : Nat) :
    ∀ (rels : List semanticRelation) (l3 : List Lookup),
      semLookups arena (a ||| b) rels = some l3 →
      ∃ l1 l2, semLookups arena a rels = some l1 ∧ semLookups arena b rels = some l2 ∧
        ∀ x, x ∈ l3 ↔ x ∈ l1 ∨ x ∈ l2 := by
  intro rels
  induction rels with
  | nil =>
    intro l3 h
    simp only [semLookups] at h
    cases h
    exact ⟨[], [], rfl, rfl, by simp⟩
  | cons rel rest ih =>
    intro l3 h
    by_cases hab : rel.rel &&& (a ||| b) ≠ 0
    · simp only [semLookups, if_pos hab] at h
      rcases htc : arena[rel.target]? with _ | tc <;> simp only [htc] at h
      · cases h
      · rcases hw0 : tc.words[0]? with _ | w0 <;> simp only [hw0] at h
        · cases h
        · rcases hrec : semLookups arena (a ||| b) rest with _ | tail <;> simp only [hrec] at h
          · cases h
          · cases h
            rcases ih tail hrec with ⟨t1, t2, ht1, ht2, hmem⟩
            have hor := (and_or_mask rel.rel a b).mp hab
            by_cases ha : rel.rel &&& a ≠ 0
            · by_cases hb : rel.rel &&& b ≠ 0
              · refine ⟨{ word := w0.word, cluster := rel.target } :: t1,
                        { word := w0.word, cluster := rel.target } :: t2, ?_, ?_, ?_⟩
                · simp only [semLookups, if_pos ha, htc, hw0, ht1]
                · simp only [semLookups, if_pos hb, htc, hw0, ht2]
                · intro x
                  simp only [List.mem_cons, hmem x]
                  tauto
              · refine ⟨{ word := w0.word, cluster := rel.target } :: t1, t2, ?_, ?_, ?_⟩
                · simp only [semLookups, if_pos ha, htc, hw0, ht1]
                · simp only [semLookups, if_neg hb, ht2]
                · intro x
                  simp only [List.mem_cons, hmem x]
                  tauto
            · by_cases hb : rel.rel &&& b ≠ 0
              · refine ⟨t1, { word := w0.word, cluster := rel.target } :: t2, ?_, ?_, ?_⟩
                · simp only [semLookups, if_neg ha, ht1]
                · simp only [semLookups, if_pos hb, htc, hw0, ht2]
                · intro x
                  simp only [List.mem_cons, hmem x]
                  tauto
              · rcases hor with hx | hx
                · exact absurd hx ha
                · exact absurd hx hb
    · simp only [semLookups, if_neg hab] at h
      rcases ih l3 h with ⟨t1, t2, ht1, ht2, hmem⟩
      have ha : ¬ rel.rel &&& a ≠ 0 := fun hx => hab ((and_or_mask rel.rel a b).mpr (Or.inl hx))
      have hb : ¬ rel.rel &&& b ≠ 0 := fun hx => hab ((and_or_mask rel.rel a b).mpr (Or.inr hx))
      exact ⟨t1, t2, by simp only [semLookups, if_neg ha, ht1],
             by simp only [semLookups, if_neg hb, ht2], hmem⟩

theorem synLookups_union (arena : List cluster) (a b : Nat) :
    ∀ (rels : List syntacticRelation) (l3 : List Lookup),
      synLookups arena (a ||| b) rels = some l3 →
      ∃ l1 l2, synLookups arena a rels = some l1 ∧ synLookups arena b rels = some l2 ∧
        ∀ x, x ∈ l3 ↔ x ∈ l1 ∨ x ∈ l2 := by
  intro rels
  induction rels with
  | nil =>
    intro l3 h
    simp only [synLookups] at h
    cases h
    exact ⟨[], [], rfl, rfl, by simp⟩
  | cons rel rest ih =>
    intro l3 h
    by_cases hab : rel.rel &&& (a ||| b) ≠ 0
    · simp only [synLookups, if_pos hab] at h
      rcases htc : arena[rel.target]? with _ | tc <;> simp only [htc] at h
      · cases h
      · rcases hw0 : tc.words[rel.wordNumber]? with _ | tw <;> simp only [hw0] at h
        · cases h
        · rcases hrec : synLookups arena (a ||| b) rest with _ | tail <;> simp only [hrec] at h
          · cases h
          · cases h
            rcases ih tail hrec with ⟨t1, t2, ht1, ht2, hmem⟩
            have hor := (and_or_mask rel.rel a b).mp hab
            by_cases ha : rel.rel &&& a ≠ 0
            · by_cases hb : rel.rel &&& b ≠ 0
              · refine ⟨{ word := tw.word, cluster := rel.target } :: t1,
                        { word := tw.word, cluster := rel.target } :: t2, ?_, ?_, ?_⟩
                · simp only [synLookups, if_pos ha, htc, hw0, ht1]
                · simp only [synLookups, if_pos hb, htc, hw0, ht2]
                · intro x
                  simp only [List.mem_cons, hmem x]
                  tauto
              · refine ⟨{ word := tw.word, cluster := rel.target } :: t1, t2, ?_, ?_, ?_⟩
                · simp only [synLookups, if_pos ha, htc, hw0, ht1]
                · simp only [synLookups, if_neg hb, ht2]
                · intro x
                  simp only [List.mem_cons, hmem x]
                  tauto
            · by_cases hb : rel.rel &&& b ≠ 0
              · refine ⟨t1, { word := tw.word, cluster := rel.target } :: t2, ?_, ?_, ?_⟩
                · simp only [synLookups, if_neg ha, ht1]
                · simp only [synLookups, if_pos hb, htc, hw0, ht2]
                · intro x
                  simp only [List.mem_cons, hmem x]
                  tauto
              · rcases hor with hx | hx
                · exact absurd hx ha
                · exact absurd hx hb
    · simp only [synLookups, if_neg hab] at h
      rcases ih l3 h with ⟨t1, t2, ht1, ht2, hmem⟩
      have ha : ¬ rel.rel &&& a ≠ 0 := fun hx => hab ((and_or_mask rel.rel a b).mpr (Or.inl hx))
      have hb : ¬ rel.rel &&& b ≠ 0 := fun hx => hab ((and_or_mask rel.rel a b).mpr (Or.inr hx))
      exact ⟨t1, t2, by simp only [synLookups, if_neg ha, ht1],
             by simp only [synLookups, if_neg hb, ht2], hmem⟩

theorem synFromWords_union (arena : List cluster) (a b : Nat) (key : List Char) :
    ∀ (ws : List word) (l3 : List Lookup),
      synFromWords arena (a ||| b) key ws = some l3 →
      ∃ l1 l2, synFromWords arena a key ws = some l1 ∧ synFromWords arena b key ws = some l2 ∧
        ∀ x, x ∈ l3 ↔ x ∈ l1 ∨ x ∈ l2 := by
  intro ws
  induction ws with
  | nil =>
    intro l3 h
    simp only [synFromWords] at h
    cases h
    exact ⟨[], [], rfl, rfl, by simp⟩
  | cons w rest ih =>
    intro l3 h
    by_cases hk : key = w.word
    · simp only [synFromWords, if_pos hk] at h
      rcases h1 : synLookups arena (a ||| b) w.relations with _ | la <;> simp only [h1] at h
      · cases h
      · rcases h2 : synFromWords arena (a ||| b) key rest with _ | lb <;> simp only [h2] at h
        · cases h
        · cases h
          rcases synLookups_union arena a b w.relations la h1 with ⟨la1, la2, hla1, hla2, hma⟩
          rcases ih lb h2 with ⟨lb1, lb2, hlb1, hlb2, hmb⟩
          refine ⟨la1 ++ lb1, la2 ++ lb2, ?_, ?_, ?_⟩
          · simp only [synFromWords, if_pos hk, hla1, hlb1]
          · simp only [synFromWords, if_pos hk, hla2, hlb2]
          · intro x
            simp only [List.mem_append, hma x, hmb x]
            tauto
    · simp only [synFromWords, if_neg hk] at h
      rcases ih l3 h with ⟨l1, l2, hl1, hl2, hm⟩
      exact ⟨l1, l2, by simp only [synFromWords, if_neg hk, hl1],
             by simp only [synFromWords, if_neg hk, hl2], hm⟩

theorem clusterSet_of_mem_union (l3 l1 l2 : List Lookup)
    (h : ∀ x, x ∈ l3 ↔ x ∈ l1 ∨ x ∈ l2) (t : Nat) :
    (∃ x ∈ l3, x.cluster = t) ↔ (∃ x ∈ l1, x.cluster = t) ∨ (∃ x ∈ l2, x.cluster = t) := by
  constructor
  · rintro ⟨x, hx, hxc⟩
    rcases (h x).mp hx with h1 | h2
    · exact Or.inl ⟨x, h1, hxc⟩
    · exact Or.inr ⟨x, h2, hxc⟩
  · rintro (⟨x, hx, hxc⟩ | ⟨x, hx, hxc⟩)
    · exact ⟨x, (h x).mpr (Or.inl hx), hxc⟩
    · exact ⟨x, (h x).mpr (Or.inr hx), hxc⟩

/-- C2: if `Related` with the union mask `a ||| b` returns a result
list, then `Related` with mask `a` alone and with mask `b` alone also
return result lists, and the set of nodes in the union-mask result is
exactly the union of the two mask-specific node sets. -/
theorem c2_related_union (arena : List cluster) (w : Lookup) (a b : Nat) (l3 : List Lookup)
    (h : Lookup.Related arena w (a ||| b) = some l3) :
    ∃ l1 l2, Lookup.Related arena w a = some l1 ∧ Lookup.Related arena w b = some l2 ∧
      ∀ t, (∃ x ∈ l3, x.cluster = t) ↔
        (∃ x ∈ l1, x.cluster = t) ∨ (∃ x ∈ l2, x.cluster = t) := by
  rcases hc : arena[w.cluster]? with _ | c
  · simp only [Lookup.Related, hc] at h
    cases h
  · simp only [Lookup.Related, hc] at h
    rcases h1 : semLookups arena (a ||| b) c.relations with _ | sems <;> simp only [h1] at h
    · cases h
    · rcases h2 : synFromWords arena (a ||| b) (normalize w.word) c.words with _ | syns <;>
        simp only [h2] at h
      · cases h
      · cases h
        rcases semLookups_union arena a b c.relations sems h1 with ⟨s1, s2, hs1, hs2, hms⟩
        rcases synFromWords_union arena a b (normalize w.word) c.words syns h2 with
          ⟨y1, y2, hy1, hy2, hmy⟩
        refine ⟨s1 ++ y1, s2 ++ y2, ?_, ?_, ?_⟩
        · simp only [Lookup.Related, hc, hs1, hy1]
        · simp only [Lookup.Related, hc, hs2, hy2]
        · refine fun t => clusterSet_of_mem_union _ _ _ (fun x => ?_) t
          simp only [List.mem_append, hms x, hmy x]
          tauto

/-- Witness for C2 on `arena2` with masks Antonym and Hypernym. -/
theorem c2_related_union_witness :
    ∃ l1 l2, Lookup.Related arena2 { word := wGood, cluster := 0 } Antonym = some l1 ∧
      Lookup.Related arena2 { word := wGood, cluster := 0 } Hypernym = some l2 ∧
      ∀ t, (∃ x ∈ [({ word := wBad, cluster := 1 } : Lookup),
                   { word := wBad, cluster := 1 }], x.cluster = t) ↔
        (∃ x ∈ l1, x.cluster = t) ∨ (∃ x ∈ l2, x.cluster = t) :=
  c2_related_union arena2 { word := wGood, cluster := 0 } Antonym Hypernym
    [{ word := wBad, cluster := 1 }, { word := wBad, cluster := 1 }] rfl

theorem lookupFilter_clusters (arena : List cluster) (ps : List PartOfSpeech)
    (m m' : List Char) :
    ∀ cis : List Nat,
      (lookupFilter arena m ps cis).map Lookup.cluster =
      (lookupFilter arena m' ps cis).map Lookup.cluster := by
  intro cis
  induction cis with
  | nil => rfl
  | cons ci rest ih =>
    by_cases hcond : ps ≠ [] ∧ posContains ps (getC arena ci).pos = false
    · simp only [lookupFilter, if_pos hcond, ih]
    · simp only [lookupFilter, if_neg hcond, List.map_cons, ih]

/-- C7 (amended): two non-empty search texts with the same
normalization produce result lists over the same clusters in the same
order; the results themselves differ exactly in carrying the original
un-normalized search text. -/
theorem c7_lookup_normalization (h : Handle) (s t : List Char) (ps : List PartOfSpeech)
    (hn : normalize s = normalize t) (hs : s ≠ []) (ht : t ≠ []) :
    ∃ l1 l2, Handle.Lookup h { Matching := s, POS := ps } = Except.ok l1 ∧
      Handle.Lookup h { Matching := t, POS := ps } = Except.ok l2 ∧
      l1.map Lookup.cluster = l2.map Lookup.cluster := by
  refine ⟨lookupFilter h.arena s ps ((indexFind h.index (normalize s)).getD []),
          lookupFilter h.arena t ps ((indexFind h.index (normalize t)).getD []), ?_, ?_, ?_⟩
  · simp only [Handle.Lookup, if_neg hs]
  · simp only [Handle.Lookup, if_neg ht]
  · rw [hn]
    exact lookupFilter_clusters h.arena ps s t ((indexFind h.index (normalize t)).getD [])

/-- C7 counterexample: on the handle loaded from `ex9`, the searches
" Good " and "good" normalize identically yet return different result
sets, because each result carries the original un-normalized search
text: the " Good " result is not among the "good" results. -/
theorem c7_counterexample :
    buildGraph ex9 = Except.ok ex9H ∧
    Handle.Lookup ex9H { Matching := wGoodCapPad, POS := [] } =
      Except.ok [{ word := wGoodCapPad, cluster := 0 }] ∧
    Handle.Lookup ex9H { Matching := wGood, POS := [] } =
      Except.ok [{ word := wGood, cluster := 0 }] ∧
    ({ word := wGoodCapPad, cluster := 0 } : Lookup) ∉
      [({ word := wGood, cluster := 0 } : Lookup)] :=
  ⟨rfl, rfl, rfl, by decide⟩

/-- Witness for the amended C7 on `ex9H` with " Good " and "good". -/
theorem c7_lookup_normalization_witness :
    ∃ l1 l2, Handle.Lookup ex9H { Matching := wGoodCapPad, POS := [] } = Except.ok l1 ∧
      Handle.Lookup ex9H { Matching := wGood, POS := [] } = Except.ok l2 ∧
      l1.map Lookup.cluster = l2.map Lookup.cluster :=
  c7_lookup_normalization ex9H wGoodCapPad wGood [] rfl (by decide) (by decide)

theorem getC_set_words_eq (a : List cluster) (ci : Nat) (c' : cluster)
    (hw : c'.words.length = (getC a ci).words.length) :
    (getC (a.set ci c') ci).words.length = (getC a ci).words.length := by
  rw [getC_set_self]
  split
  · exact hw
  · rfl

theorem wordsLen_set_keep (a : List cluster) (ci : Nat) (c' : cluster) (n : Nat)
    (hw : c'.words.length = (getC a ci).words.length)
    (h : (getC a ci).words.length ≤ n) :
    (getC (a.set ci c') ci).words.length ≤ n := by
  rw [getC_set_words_eq a ci c' hw]
  exact h

theorem wordsLen_set_le (a : List cluster) (ci : Nat) (c' : cluster) (n : Nat)
    (hw : c'.words.length ≤ n) :
    (getC (a.set ci c') ci).words.length ≤ n := by
  rw [getC_set_self]
  split
  · exact hw
  · next hlt =>
    have h0 : a[ci]? = none := List.getElem?_eq_none (Nat.not_lt.mp hlt)
    rw [getC, h0]
    exact Nat.zero_le _

theorem processRels_err (ci : Nat) :
    ∀ (rels : List parsedRel) (st : BuildSt),
      (∃ r ∈ rels, r.isSemantic = false ∧ (getC st.arena ci).words.length ≤ r.source) →
      ∃ e, processRels ci rels st = Except.error e := by
  intro rels
  induction rels with
  | nil =>
    rintro st ⟨r, hr, _⟩
    cases hr
  | cons r0 rest ih =>
    rintro st ⟨r, hr, hsem, hlen⟩
    have hres : getC (resolveOrCreate st (r0.offset, r0.pos)).2.arena ci = getC st.arena ci :=
      getC_resolve st (r0.offset, r0.pos) ci
    by_cases hsem0 : r0.isSemantic = true
    · have hr2 : r ∈ rest := by
        rcases List.mem_cons.mp hr with h1 | h2
        · rw [h1, hsem0] at hsem
          cases hsem
        · exact h2
      simp only [processRels, hsem0, if_true]
      apply ih
      refine ⟨r, hr2, hsem, ?_⟩
      apply wordsLen_set_keep
      · rfl
      · rw [hres]
        exact hlen
    · by_cases hchk :
          (getC (resolveOrCreate st (r0.offset, r0.pos)).2.arena ci).words.length ≤ r0.source
      · refine ⟨"error parsing relations, bogus source", ?_⟩
        simp only [processRels, hsem0, Bool.false_eq_true, if_false, if_pos hchk]
      · have hr2 : r ∈ rest := by
          rcases List.mem_cons.mp hr with h1 | h2
          · exfalso
            apply hchk
            rw [hres, ← h1]
            exact hlen
          · exact h2
        simp only [processRels, hsem0, Bool.false_eq_true, if_false, if_neg hchk]
        apply ih
        refine ⟨r, hr2, hsem, ?_⟩
        apply wordsLen_set_keep
        · exact appendWordRel_length _ _ _
        · rw [hres]
          exact hlen

theorem processEntry_err (st : BuildSt) (p : parsed)
    (hbad : ∃ r ∈ p.rels, r.isSemantic = false ∧ p.words.length ≤ r.source) :
    ∃ e, processEntry st p = Except.error e := by
  rcases hbad with ⟨r, hr, hsem, hlen⟩
  simp only [processEntry]
  apply processRels_err
  refine ⟨r, hr, hsem, ?_⟩
  apply wordsLen_set_le
  exact hlen

theorem buildEntries_err :
    ∀ (entries : List parsed) (st : BuildSt),
      (∃ p ∈ entries, ∃ r ∈ p.rels, r.isSemantic = false ∧ p.words.length ≤ r.source) →
      ∃ e, buildEntries entries st = Except.error e := by
  intro entries
  induction entries with
  | nil =>
    rintro st ⟨p, hp, _⟩
    cases hp
  | cons p0 rest ih =>
    rintro st ⟨p, hp, hbad⟩
    rcases List.mem_cons.mp hp with h1 | h2
    · subst h1
      rcases processEntry_err st p hbad with ⟨e, he⟩
      exact ⟨e, by simp only [buildEntries, he]⟩
    · rcases hpe : processEntry st p0 with e | st'
      · exact ⟨e, by simp only [buildEntries, hpe]⟩
      · rcases ih st' ⟨p, h2, hbad⟩ with ⟨e, he⟩
        exact ⟨e, by simp only [buildEntries, hpe]; exact he⟩

/-- C6: a parsed entry containing a syntactic relation whose source
word index is out of range for the entry's own word list makes the
whole load (`buildGraph`) fail with an error; consequently syntactic
relations are only ever attached at word positions that exist in their
owning node. -/
theorem c6_bad_source_aborts (entries : List parsed) (p : parsed) (r : parsedRel)
    (hp : p ∈ entries) (hr : r ∈ p.rels) (hsem : r.isSemantic = false)
    (hsrc : p.words.length ≤ r.source) :
    ∃ e, buildGraph entries = Except.error e := by
  rcases buildEntries_err entries { arena := [], byOffset := [] } ⟨p, hp, r, hr, hsem, hsrc⟩ with
    ⟨e, he⟩
  exact ⟨e, by simp only [buildGraph, he]⟩

/-- Witness for C6 on `ex6` (source index 3 in a one-word entry). -/
theorem c6_bad_source_aborts_witness : ∃ e, buildGraph ex6 = Except.error e :=
  c6_bad_source_aborts ex6
    { byteOffset := off1, pos := .Noun, fileNum := 0,
      words := [{ sense := 1, word := wGood, relations := [] }],
      gloss := [],
      rels := [{ rel := Antonym, pos := .Noun, offset := off2,
                 isSemantic := false, source := 3, dest := 0 }] }
    { rel := Antonym, pos := .Noun, offset := off2, isSemantic := false, source := 3, dest := 0 }
    (by decide) (by decide) (by decide) (by decide)

theorem good_of_getC (arena : List cluster) (i : Nat) (h : (getC arena i).words ≠ []) :
    ∃ c, arena[i]? = some c ∧ c.words ≠ [] := by
  rcases hx : arena[i]? with _ | c
  · rw [getC, hx] at h
    exact absurd rfl h
  · refine ⟨c, rfl, ?_⟩
    rw [getC, hx] at h
    exact h

theorem indexInsert_sound (good : Nat → Prop) :
    ∀ (ix : List (List Char × List Nat)) (k : List Char) (i : Nat),
      (∀ kb ∈ ix, ∀ j ∈ kb.2, good j) → good i →
      ∀ kb ∈ indexInsert ix k i, ∀ j ∈ kb.2, good j := by
  intro ix
  induction ix with
  | nil =>
    intro k i _ hi kb hkb j hj
    rcases List.mem_singleton.mp hkb with rfl
    rcases List.mem_singleton.mp hj with rfl
    exact hi
  | cons kv rest ih =>
    intro k i h0 hi kb hkb j hj
    rcases kv with ⟨k', v⟩
    by_cases hk : k' = k
    · simp only [indexInsert, if_pos hk] at hkb
      rcases List.mem_cons.mp hkb with h1 | h2
      · subst h1
        rcases List.mem_append.mp hj with hj1 | hj2
        · exact h0 (k', v) (List.mem_cons_self _ _) j hj1
        · rcases List.mem_singleton.mp hj2 with rfl
          exact hi
      · exact h0 kb (List.mem_cons_of_mem _ h2) j hj
    · simp only [indexInsert, if_neg hk] at hkb
      rcases List.mem_cons.mp hkb with h1 | h2
      · subst h1
        exact h0 (k', v) (List.mem_cons_self _ _) j hj
      · exact ih k i (fun kb2 hkb2 => h0 kb2 (List.mem_cons_of_mem _ hkb2)) hi kb h2 j hj

theorem indexClusterWords_sound (good : Nat → Prop) (i : Nat) (hi : good i) :
    ∀ (ws : List word) (ix : List (List Char × List Nat)),
      (∀ kb ∈ ix, ∀ j ∈ kb.2, good j) →
      ∀ kb ∈ indexClusterWords ix i ws, ∀ j ∈ kb.2, good j := by
  intro ws
  induction ws with
  | nil =>
    intro ix h0 kb hkb
    simp only [indexClusterWords] at hkb
    exact h0 kb hkb
  | cons w rest ih =>
    intro ix h0 kb hkb
    simp only [indexClusterWords] at hkb
    exact ih (indexInsert ix (normalize w.word) i)
      (indexInsert_sound good ix (normalize w.word) i h0 hi) kb hkb

theorem postPass_sound (arena : List cluster) :
    ∀ (kis : List ((List Char × PartOfSpeech) × Nat)) (db0 : List Nat)
      (ix0 : List (List Char × List Nat)) (db : List Nat) (ix : List (List Char × List Nat)),
      postPass arena kis db0 ix0 = Except.ok (db, ix) →
      (∀ i ∈ db0, ∃ c, arena[i]? = some c ∧ c.words ≠ []) →
      (∀ kb ∈ ix0, ∀ j ∈ kb.2, ∃ c, arena[j]? = some c ∧ c.words ≠ []) →
      (∀ i ∈ db, ∃ c, arena[i]? = some c ∧ c.words ≠ []) ∧
      (∀ kb ∈ ix, ∀ j ∈ kb.2, ∃ c, arena[j]? = some c ∧ c.words ≠ []) := by
  intro kis
  induction kis with
  | nil =>
    intro db0 ix0 db ix h hdb hix
    simp only [postPass] at h
    cases h
    exact ⟨hdb, hix⟩
  | cons ki rest ih =>
    intro db0 ix0 db ix h hdb hix
    rcases ki with ⟨k, i⟩
    by_cases hw : (getC arena i).words = []
    · simp only [postPass, if_pos hw] at h
      cases h
    · simp only [postPass, if_neg hw] at h
      have hg : ∃ c, arena[i]? = some c ∧ c.words ≠ [] := good_of_getC arena i hw
      refine ih (db0 ++ [i]) (indexClusterWords ix0 i (getC arena i).words) db ix h ?_ ?_
      · intro j hj
        rcases List.mem_append.mp hj with hj1 | hj2
        · exact hdb j hj1
        · rcases List.mem_singleton.mp hj2 with rfl
          exact hg
      · exact fun kb hkb j hj =>
          indexClusterWords_sound (fun j => ∃ c, arena[j]? = some c ∧ c.words ≠ []) i hg
            (getC arena i).words ix0 hix kb hkb j hj

theorem postPass_err (arena : List cluster) :
    ∀ (kis : List ((List Char × PartOfSpeech) × Nat)) (db0 : List Nat)
      (ix0 : List (List Char × List Nat)),
      (∃ ki ∈ kis, (getC arena ki.2).words = []) →
      ∃ e, postPass arena kis db0 ix0 = Except.error e := by
  intro kis
  induction kis with
  | nil =>
    rintro db0 ix0 ⟨ki, hki, _⟩
    cases hki
  | cons ki0 rest ih =>
    rintro db0 ix0 ⟨ki, hki, hw⟩
    rcases ki0 with ⟨k0, i0⟩
    by_cases hw0 : (getC arena i0).words = []
    · exact ⟨"internal consistency error: cluster without words",
        by simp only [postPass, if_pos hw0]⟩
    · rcases List.mem_cons.mp hki with h1 | h2
      · subst h1
        exact absurd hw hw0
      · rcases ih (db0 ++ [i0]) (indexClusterWords ix0 i0 (getC arena i0).words)
          ⟨ki, h2, hw⟩ with ⟨e, he⟩
        exact ⟨e, by simp only [postPass, if_neg hw0]; exact he⟩

/-- C1: every handle `buildGraph` returns has only nonempty clusters,
both in its iteration slice and in every lemma-index bucket; and if any
node of the identity table still has zero words after the full scan,
`buildGraph` returns an error and no handle. -/
theorem c1_no_empty_clusters (entries : List parsed) :
    (∀ h, buildGraph entries = Except.ok h →
       (∀ i ∈ h.db, ∃ c, h.arena[i]? = some c ∧ c.words ≠ []) ∧
       (∀ kb ∈ h.index, ∀ j ∈ kb.2, ∃ c, h.arena[j]? = some c ∧ c.words ≠ [])) ∧
    (∀ st, buildEntries entries { arena := [], byOffset := [] } = Except.ok st →
       (∃ ki ∈ st.byOffset, (getC st.arena ki.2).words = []) →
       ∃ e, buildGraph entries = Except.error e) := by
  constructor
  · intro h hok
    rcases hbe : buildEntries entries { arena := [], byOffset := [] } with e | st <;>
      simp only [buildGraph, hbe] at hok
    · cases hok
    · rcases hpp : postPass st.arena st.byOffset [] [] with e | dbix <;> simp only [hpp] at hok
      · cases hok
      · rcases dbix with ⟨db, ix⟩
        cases hok
        have hs := postPass_sound st.arena st.byOffset [] [] db ix hpp (by simp) (by simp)
        exact ⟨hs.1, hs.2⟩
  · intro st hbe hbad
    rcases postPass_err st.arena st.byOffset [] [] hbad with ⟨e, he⟩
    exact ⟨e, by simp only [buildGraph, hbe, he]⟩

/-- Witness for C1: part one applied to the handle of `ex9`, part two
applied to the dangling-placeholder stream `ex1bad`. -/
theorem c1_no_empty_clusters_witness :
    (∃ c, ex9H.arena[0]? = some c ∧ c.words ≠ []) ∧
    (∃ e, buildGraph ex1bad = Except.error e) :=
  ⟨((c1_no_empty_clusters ex9).1 ex9H rfl).1 0 (by decide),
   (c1_no_empty_clusters ex1bad).2 ex1St rfl (by decide)⟩

theorem getElem?_eq_getC (arena : List cluster) (i : Nat) (h : i < arena.length) :
    arena[i]? = some (getC arena i) := by
  rw [getC]
  rcases hx : arena[i]? with _ | c
  · rw [List.getElem?_eq_none_iff] at hx
    omega
  · rfl

theorem visitL_cons_pos (arena : List cluster) (pos : List PartOfSpeech) (ci : Nat)
    (rest : List Nat) (lk : Lookup) (hp : passes pos (getC arena ci) = true)
    (ha : anchorLookup arena ci = some lk) :
    visitL arena pos (ci :: rest) = lk :: visitL arena pos rest := by
  simp [visitL, List.filter_cons, hp, List.filterMap_cons, ha]

theorem visitL_cons_neg (arena : List cluster) (pos : List PartOfSpeech) (ci : Nat)
    (rest : List Nat) (hp : passes pos (getC arena ci) = false) :
    visitL arena pos (ci :: rest) = visitL arena pos rest := by
  simp [visitL, List.filter_cons, hp]

theorem iterateAux_ok {E : Type} (arena : List cluster) (pos : List PartOfSpeech)
    (cb : Lookup → Except E Unit) :
    ∀ dbl : List Nat, (∀ i ∈ dbl, i < arena.length ∧ (getC arena i).words ≠ []) →
      (∀ l ∈ visitL arena pos dbl, cb l = Except.ok ()) →
      iterateAux arena pos cb dbl = some (Except.ok ()) := by
  intro dbl
  induction dbl with
  | nil =>
    intro _ _
    rfl
  | cons ci rest ih =>
    intro hw hcb
    rcases hw ci (List.mem_cons_self _ _) with ⟨hlt, hne⟩
    have hsome : arena[ci]? = some (getC arena ci) := getElem?_eq_getC arena ci hlt
    rcases hw0 : (getC arena ci).words[0]? with _ | w0
    · rw [List.getElem?_eq_none_iff] at hw0
      exact absurd (List.eq_nil_of_length_eq_zero (Nat.le_zero.mp hw0)) hne
    · by_cases hcond : pos ≠ [] ∧ posContains pos (getC arena ci).pos = false
      · have hp : passes pos (getC arena ci) = false := by simp only [passes, if_pos hcond]
        have hvl := visitL_cons_neg arena pos ci rest hp
        simp only [iterateAux, hsome, if_pos hcond]
        exact ih (fun i hi => hw i (List.mem_cons_of_mem _ hi))
          (fun l hl => hcb l (by rw [hvl]; exact hl))
      · have hp : passes pos (getC arena ci) = true := by simp only [passes, if_neg hcond]
        have hanchor : anchorLookup arena ci = some { word := w0.word, cluster := ci } := by
          simp only [anchorLookup, hsome, hw0]
        have hvl := visitL_cons_pos arena pos ci rest _ hp hanchor
        have hcb0 : cb { word := w0.word, cluster := ci } = Except.ok () :=
          hcb _ (by rw [hvl]; exact List.mem_cons_self _ _)
        simp only [iterateAux, hsome, if_neg hcond, hw0, hcb0]
        exact ih (fun i hi => hw i (List.mem_cons_of_mem _ hi))
          (fun l hl => hcb l (by rw [hvl]; exact List.mem_cons_of_mem _ hl))

theorem iterateAux_err {E : Type} (arena : List cluster) (pos : List PartOfSpeech)
    (cb : Lookup → Except E Unit) :
    ∀ (dbl : List Nat) (pre : List Lookup) (x : Lookup) (post : List Lookup) (e : E),
      (∀ i ∈ dbl, i < arena.length ∧ (getC arena i).words ≠ []) →
      visitL arena pos dbl = pre ++ x :: post →
      (∀ y ∈ pre, cb y = Except.ok ()) →
      cb x = Except.error e →
      iterateAux arena pos cb dbl = some (Except.error e) := by
  intro dbl
  induction dbl with
  | nil =>
    intro pre x post e _ hvl _ _
    rw [show visitL arena pos [] = [] from rfl] at hvl
    cases pre <;> cases hvl
  | cons ci rest ih =>
    intro pre x post e hw hvl hpre hx
    rcases hw ci (List.mem_cons_self _ _) with ⟨hlt, hne⟩
    have hsome : arena[ci]? = some (getC arena ci) := getElem?_eq_getC arena ci hlt
    rcases hw0 : (getC arena ci).words[0]? with _ | w0
    · rw [List.getElem?_eq_none_iff] at hw0
      exact absurd (List.eq_nil_of_length_eq_zero (Nat.le_zero.mp hw0)) hne
    · by_cases hcond : pos ≠ [] ∧ posContains pos (getC arena ci).pos = false
      · have hp : passes pos (getC arena ci) = false := by simp only [passes, if_pos hcond]
        rw [visitL_cons_neg arena pos ci rest hp] at hvl
        simp only [iterateAux, hsome, if_pos hcond]
        exact ih pre x post e (fun i hi => hw i (List.mem_cons_of_mem _ hi)) hvl hpre hx
      · have hp : passes pos (getC arena ci) = true := by simp only [passes, if_neg hcond]
        have hanchor : anchorLookup arena ci = some { word := w0.word, cluster := ci } := by
          simp only [anchorLookup, hsome, hw0]
        rw [visitL_cons_pos arena pos ci rest _ hp hanchor] at hvl
        rcases pre with _ | ⟨y, pre'⟩
        · rw [List.nil_append] at hvl
          injection hvl with h1 h2
          subst h1
          simp only [iterateAux, hsome, if_neg hcond, hw0, hx]
        · rw [List.cons_append] at hvl
          injection hvl with h1 h2
          subst h1
          have hcb0 : cb { word := w0.word, cluster := ci } = Except.ok () :=
            hpre _ (List.mem_cons_self _ _)
          simp only [iterateAux, hsome, if_neg hcond, hw0, hcb0]
          exact ih pre' x post e (fun i hi => hw i (List.mem_cons_of_mem _ hi)) h2
            (fun y hy => hpre y (List.mem_cons_of_mem _ hy)) hx

/-- C8: `Iterate` traverses exactly the nodes of the iteration slice
that pass the part-of-speech filter, once each and in slice order,
presenting each as a result view anchored at the node's first member
word (the sequence `visitL`); if every visit succeeds it completes
with `ok`, and it stops at the first visitor error, returning that
error unchanged. -/
theorem c8_iterate (h : Handle) (pos : List PartOfSpeech) {E : Type}
    (cb : Lookup → Except E Unit)
    (hw : ∀ i ∈ h.db, i < h.arena.length ∧ (getC h.arena i).words ≠ []) :
    ((∀ l ∈ visitL h.arena pos h.db, cb l = Except.ok ()) →
       Handle.Iterate h pos cb = some (Except.ok ())) ∧
    (∀ pre x post e, visitL h.arena pos h.db = pre ++ x :: post →
       (∀ y ∈ pre, cb y = Except.ok ()) → cb x = Except.error e →
       Handle.Iterate h pos cb = some (Except.error e)) :=
  ⟨fun hcb => iterateAux_ok h.arena pos cb h.db hw hcb,
   fun pre x post e hvl hpre hx =>
     iterateAux_err h.arena pos cb h.db pre x post e hw hvl hpre hx⟩

/-- Witness for C8 on `ex9H`: a visitor that fails on cluster 0 stops
the traversal at the first visit and its error is returned unchanged. -/
theorem c8_iterate_witness :
    Handle.Iterate ex9H []
      (fun l => if l.cluster = 0 then Except.error "stop" else Except.ok ()) =
      some (Except.error "stop") :=
  (c8_iterate ex9H []
      (fun l => if l.cluster = 0 then Except.error "stop" else Except.ok ())
      (by decide)).2
    [] { word := wGood, cluster := 0 } [{ word := wBad, cluster := 1 }] "stop"
    rfl (by simp) rfl

end Wnram
